import Mathlib

/-!
Verification development for the RTVM Tool removal subsystem
(`rtvm/removal-tool.py`, `RemovalTool._process_removal`).

The reconciliation core is embedded shallowly:

* cell text is `Option String` (`none` models a blank / NaN cell);
* a line is a `List Char` (Python manipulates the characters of each line);
* the line extractor mirrors
  `[line.strip() for line in str(s).split('\n') if line.strip()]`;
* the prior-snapshot index mirrors the two `for idx, row in old_df.iterrows()`
  passes that build `old_patterns_map` (a dict from object id to a dict with a
  `patterns` set and, after the second pass, a `comments` set);
* per-row reconciliation mirrors the filtering loop over the current
  dataframe, including the `obj_id in old_patterns_map` and
  `'comments' in old_patterns_map[obj_id]` guards, the `Row {idx+2}: {line}`
  removal tags, and the length-difference test that sets `changes_made`;
* the selective-cell-writer step is modelled by the list of `(row, column,
  value)` cell writes the openpyxl loop performs, including the header scan
  for the comment column and the `if comment_col_letter is not None` guard;
* the diff reporter mirrors the `removed[:20]` truncation and the
  `... and {n - 20} more` remainder message.
-/

namespace RTVM

/-- Python whitespace characters recognised by `str.strip()` (ASCII part). -/
def isSpaceChar (c : Char) : Bool :=
  c = ' ' || c = '\t' || c = '\n' || c = '\r' || c = '\x0b' || c = '\x0c'

/-- `s.split('\n')` on a character list: split on newline characters.
Mirrors Python semantics: the empty string splits to `[""]`. -/
def splitNl : List Char → List Char → List (List Char)
  | [], acc => [acc.reverse]
  | c :: cs, acc =>
    if c = '\n' then acc.reverse :: splitNl cs []
    else splitNl cs (c :: acc)

/-- Drop trailing whitespace characters. -/
def dropTrailingWs (l : List Char) : List Char :=
  (l.reverse.dropWhile isSpaceChar).reverse

/-- `line.strip()`: drop leading and trailing whitespace. -/
def trimChars (l : List Char) : List Char :=
  dropTrailingWs (l.dropWhile isSpaceChar)

/-- The line extractor on a character list:
`[line.strip() for line in s.split('\n') if line.strip()]`. -/
def extractLinesCore (s : List Char) : List (List Char) :=
  ((splitNl s []).map trimChars).filter (fun l => !l.isEmpty)

/-- The line extractor on a cell value; a blank / NaN cell
(`if pd.isna(s): s = ""`) is modelled by `none`. -/
def extractLines (v : Option String) : List (List Char) :=
  extractLinesCore (v.getD "").toList

/-- `'\n'.join(lines)` on character lists. -/
def joinNl : List (List Char) → List Char
  | [] => []
  | [l] => l
  | l :: l2 :: ls => l ++ '\n' :: joinNl (l2 :: ls)

/-- `'\n'.join(lines)` producing a cell string. -/
def joinLines (ls : List (List Char)) : String :=
  String.mk (joinNl ls)

/-- One spreadsheet row of the data the removal tool touches:
object id (column 0, stringified), the "Proposed Changes" cell (column
index 6) and the "Contractor Proposed Change Comment Input" cell. -/
structure Row where
  object_id : String
  pattern_text : Option String
  comment_text : Option String
deriving DecidableEq

/-- One entry of `old_patterns_map`: the `patterns` key is always present,
the `comments` key only after the second indexing pass has reached the id
(`none` models the dict without a `'comments'` key). -/
structure IndexEntry where
  patterns : List (List Char)
  comments : Option (List (List Char))
deriving DecidableEq

/-- The prior-snapshot index, as a lookup function (a Python dict). -/
abbrev Index := String → Option IndexEntry

/-- Dict assignment `m[k] = v`. -/
def updFn (m : Index) (k : String) (v : IndexEntry) : Index :=
  fun q => if q = k then some v else m q

/-- First indexing pass over the prior snapshot:
`old_patterns_map[obj_id] = {'patterns': old_patterns_set}` for every prior
row, in order. A later row with the same id replaces the whole entry. -/
def pass1 : List Row → Index → Index
  | [], m => m
  | r :: rs, m =>
    pass1 rs (updFn m r.object_id
      { patterns := extractLines r.pattern_text, comments := none })

/-- Second indexing pass over the prior snapshot: for every prior row, in
order, pre-create `{'patterns': set()}` when the id is absent and then
assign `old_patterns_map[obj_id]['comments'] = old_comments_set`. -/
def pass2 : List Row → Index → Index
  | [], m => m
  | r :: rs, m =>
    let m1 : Index :=
      match m r.object_id with
      | none => updFn m r.object_id { patterns := [], comments := none }
      | some _ => m
    let e1 : IndexEntry :=
      match m1 r.object_id with
      | none => { patterns := [], comments := none }
      | some e => e
    pass2 rs (updFn m1 r.object_id
      { e1 with comments := some (extractLines r.comment_text) })

/-- `old_patterns_map` as built from the prior snapshot by the two passes. -/
def build_index (prior : List Row) : Index :=
  pass2 prior (pass1 prior (fun _ => none))

/-- The last prior row carrying a given object id, if any. -/
def lastRowWith (prior : List Row) (id : String) : Option Row :=
  prior.reverse.find? (fun r => r.object_id == id)

/-- Membership of a line in a stored line set (`line in old_patterns_set`). -/
def memLine (l : List Char) (s : List (List Char)) : Bool :=
  decide (l ∈ s)

/-- Per-row reconciliation result: surviving lines, removal report entries
(already formatted as `Row {idx+2}: {line}`), and whether either cell of
this row was updated in memory. -/
structure ReconResult where
  filtered_pattern_lines : List (List Char)
  filtered_comment_lines : List (List Char)
  removed_pattern_lines : List String
  removed_comment_lines : List String
  changed : Bool
deriving DecidableEq

/-- The removal report tag `f"Row {idx+2}: {line}"`. -/
def displayTag (idx : Nat) (line : List Char) : String :=
  "Row " ++ toString (idx + 2) ++ ": " ++ String.mk line

/-- Reconcile one current row (dataframe ordinal `idx`) against the index:
the body of the loop over `self.app.model.df.iterrows()`. -/
def reconcileRow (index : Index) (idx : Nat) (r : Row) : ReconResult :=
  let pattern_lines := extractLines r.pattern_text
  let comment_lines := extractLines r.comment_text
  match index r.object_id with
  | none =>
    { filtered_pattern_lines := pattern_lines
      filtered_comment_lines := comment_lines
      removed_pattern_lines := []
      removed_comment_lines := []
      changed := false }
  | some e =>
    let fp := pattern_lines.filter (fun l => !memLine l e.patterns)
    let rp := (pattern_lines.filter (fun l => memLine l e.patterns)).map (displayTag idx)
    match e.comments with
    | none =>
      { filtered_pattern_lines := fp
        filtered_comment_lines := comment_lines
        removed_pattern_lines := rp
        removed_comment_lines := []
        changed := decide (fp.length ≠ pattern_lines.length) }
    | some cs =>
      let fc := comment_lines.filter (fun l => !memLine l cs)
      let rc := (comment_lines.filter (fun l => memLine l cs)).map (displayTag idx)
      { filtered_pattern_lines := fp
        filtered_comment_lines := fc
        removed_pattern_lines := rp
        removed_comment_lines := rc
        changed := decide (fp.length ≠ pattern_lines.length ∨
                           fc.length ≠ comment_lines.length) }

/-- Reconcile a list of current rows starting at ordinal `i`. -/
def reconcileFrom (index : Index) : Nat → List Row → List ReconResult
  | _, [] => []
  | i, r :: rs => reconcileRow index i r :: reconcileFrom index (i + 1) rs

/-- Reconcile the whole current snapshot (ordinals start at 0). -/
def reconcile (current : List Row) (index : Index) : List ReconResult :=
  reconcileFrom index 0 current

/-- The in-memory dataframe mutation the reconciliation loop performs on one
row: a cell is rewritten with the joined filtered lines exactly when the
filtered line count differs from the extracted line count. -/
def updateRow (index : Index) (r : Row) : Row :=
  let pattern_lines := extractLines r.pattern_text
  let comment_lines := extractLines r.comment_text
  match index r.object_id with
  | none => r
  | some e =>
    let fp := pattern_lines.filter (fun l => !memLine l e.patterns)
    let r1 :=
      if fp.length ≠ pattern_lines.length then
        { r with pattern_text := some (joinLines fp) }
      else r
    match e.comments with
    | none => r1
    | some cs =>
      let fc := comment_lines.filter (fun l => !memLine l cs)
      if fc.length ≠ comment_lines.length then
        { r1 with comment_text := some (joinLines fc) }
      else r1

/-- A row of the "already-filtered" snapshot: both cells hold the serialized
filtered lines of a first reconciliation run. -/
def filteredRow (index : Index) (idx : Nat) (r : Row) : Row :=
  { r with
    pattern_text := some (joinLines (reconcileRow index idx r).filtered_pattern_lines)
    comment_text := some (joinLines (reconcileRow index idx r).filtered_comment_lines) }

/-- The already-filtered snapshot, built row by row from ordinal `i`. -/
def filteredSnapshotFrom (index : Index) : Nat → List Row → List Row
  | _, [] => []
  | i, r :: rs => filteredRow index i r :: filteredSnapshotFrom index (i + 1) rs

/-- The already-filtered current snapshot. -/
def filteredSnapshot (current : List Row) (index : Index) : List Row :=
  filteredSnapshotFrom index 0 current

/-- The persisted worksheet as far as the writer inspects it: its header
row (`ws.cell(row=1, column=c).value` for `c = 1 .. max_column`). -/
structure Worksheet where
  headers : List (Option String)
deriving DecidableEq

/-- The header text of the comment column. -/
def commentColName : String := "Contractor Proposed Change Comment Input"

/-- Scan of the header row for a given header text, starting at column `c`;
returns the first matching 1-based column, as the `for col in range(1,
ws.max_column + 1)` loop does. -/
def findColFrom (name : String) : List (Option String) → Nat → Option Nat
  | [], _ => none
  | h :: hs, c => if h = some name then some c else findColFrom name hs (c + 1)

/-- The writer's header scan for the comment column. -/
def findCommentCol (ws : Worksheet) (name : String) : Option Nat :=
  findColFrom name ws.headers 1

/-- The value a cell write carries: the in-memory cell, with a blank / NaN
cell coerced to the empty string (`if pd.isna(v): v = ""`). -/
def cellValue (v : Option String) : String :=
  v.getD ""

/-- The cell writes the writer performs for one dataframe row at ordinal
`idx`: the pattern cell at `(idx + 2, 7)` always, and the comment cell only
when the comment column was located (`if comment_col_letter is not None`).
Each write is `(row, column, value)`. -/
def rowWrites (ccol : Option Nat) (idx : Nat) (r : Row) : List (Nat × Nat × String) :=
  (idx + 2, 7, cellValue r.pattern_text) ::
    (match ccol with
     | some c => [(idx + 2, c, cellValue r.comment_text)]
     | none => [])

/-- The cell writes for a list of dataframe rows starting at ordinal `i`. -/
def writerWritesFrom (ccol : Option Nat) : Nat → List Row → List (Nat × Nat × String)
  | _, [] => []
  | i, r :: rs => rowWrites ccol i r ++ writerWritesFrom ccol (i + 1) rs

/-- All cell writes of the `enumerate(self.app.model.df.iterrows())` loop. -/
def writerWrites (df : List Row) (ws : Worksheet) : List (Nat × Nat × String) :=
  writerWritesFrom (findCommentCol ws commentColName) 0 df

/-- `changes_made`: whether any row's reconciliation updated a cell. -/
def changesMade (current : List Row) (index : Index) : Bool :=
  (reconcile current index).any (fun res => res.changed)

/-- The cell writes of a whole `_process_removal` run: when no change was
made the function returns before the save step and nothing is written;
otherwise the writer loop runs over the mutated dataframe. -/
def processWrites (current : List Row) (index : Index) (ws : Worksheet) :
    List (Nat × Nat × String) :=
  if changesMade current index then
    writerWrites (current.map (updateRow index)) ws
  else []

/-- One category of the removal report: the rendered entries (`removed[:20]`)
and the remainder count of the `... and {n - 20} more` line, `none` when that
line is not appended. -/
structure CatReport where
  rendered : List String
  more : Option Nat
deriving DecidableEq

/-- Summarize one category of removals, as the result-message code does. -/
def summarizeCat (removed : List String) : CatReport :=
  { rendered := removed.take 20
    more := if removed.length > 20 then some (removed.length - 20) else none }

/-- Summarize both categories (removed patterns, removed comments). -/
def summarize (rp rc : List String) : CatReport × CatReport :=
  (summarizeCat rp, summarizeCat rc)

/-- All removal report entries for patterns, across the current snapshot. -/
def removedPatterns (current : List Row) (index : Index) : List String :=
  (reconcile current index).flatMap (fun res => res.removed_pattern_lines)

/-- All removal report entries for comments, across the current snapshot. -/
def removedComments (current : List Row) (index : Index) : List String :=
  (reconcile current index).flatMap (fun res => res.removed_comment_lines)


/-- C1 prior snapshot: two prior rows sharing object id `W`, with pattern
line sets `{"P1"}` and `{"P2"}`. -/
def priorC1 : List Row :=
  [{ object_id := "W", pattern_text := some "P1", comment_text := none },
   { object_id := "W", pattern_text := some "P2", comment_text := none }]

/-- C2 prior snapshot: one row whose pattern line `X` will be removed. -/
def priorC2 : List Row :=
  [{ object_id := "id1", pattern_text := some "X", comment_text := none }]

/-- C2 current snapshot: row 0 changes (its line `X` is removed), row 1
(object id `id2`, line `K`) is untouched by reconciliation. -/
def currentC2 : List Row :=
  [{ object_id := "id1", pattern_text := some "X", comment_text := none },
   { object_id := "id2", pattern_text := some "K", comment_text := none }]

/-- C2 worksheet: no headers (the comment column is not found). -/
def wsC2 : Worksheet := { headers := [] }

/-- C3 prior snapshot. -/
def priorC3 : List Row :=
  [{ object_id := "id1", pattern_text := some "X", comment_text := none }]

/-- C3 current snapshot: its single row changes, so the writer runs. -/
def currentC3 : List Row :=
  [{ object_id := "id1", pattern_text := some "X", comment_text := none }]

/-- C3 worksheet: header row lacks the comment column header. -/
def wsC3 : Worksheet := { headers := [some "Object ID"] }

/-- C5 prior snapshot: object `WCC-1` with pattern text `A\nB`. -/
def priorC5 : List Row :=
  [{ object_id := "WCC-1", pattern_text := some "A\nB", comment_text := none }]

/-- C5 current row: object `WCC-1` with pattern text `A\nB\nC`, ordinal 0. -/
def rowC5 : Row :=
  { object_id := "WCC-1", pattern_text := some "A\nB\nC", comment_text := none }

/-- The index entry built for `WCC-1` from `priorC5`. -/
def entryC5 : IndexEntry :=
  { patterns := ["A".toList, "B".toList], comments := some [] }

/-- C7 prior snapshot: only object id `WCC-9` is indexed. -/
def priorC7 : List Row :=
  [{ object_id := "WCC-9", pattern_text := some "P", comment_text := some "C" }]

/-- C7 current row: object id `WCC-NEW` is absent from the prior index. -/
def rowC7 : Row :=
  { object_id := "WCC-NEW", pattern_text := some "Q\nR", comment_text := some "S" }

/-- C9 index input a: prior snapshot with rows for ids `A` and `B`. -/
def priorC9a : List Row :=
  [{ object_id := "A", pattern_text := some "P", comment_text := none },
   { object_id := "B", pattern_text := some "Q", comment_text := none }]

/-- C9 index input b: prior snapshot with a row for id `A` only; it agrees
with `priorC9a` on the entry for id `A` but differs elsewhere. -/
def priorC9b : List Row :=
  [{ object_id := "A", pattern_text := some "P", comment_text := none }]

/-- C9 current row with object id `A`. -/
def rowC9 : Row :=
  { object_id := "A", pattern_text := some "P\nZ", comment_text := none }

/-- C10 prior snapshot: one row with both pattern and comment text. -/
def priorC10 : List Row :=
  [{ object_id := "A", pattern_text := some "P", comment_text := some "C1\nC2" }]

/-- C10 current row sharing object id `A`. -/
def rowC10 : Row :=
  { object_id := "A", pattern_text := none, comment_text := some "C2\nC3" }

/-- The index entry built for `A` from `priorC10`. -/
def entryC10 : IndexEntry :=
  { patterns := ["P".toList], comments := some ["C1".toList, "C2".toList] }

theorem mem_of_mem_dropWhileWs {a : Char} {l : List Char}
    (h : a ∈ l.dropWhile isSpaceChar) : a ∈ l :=
  (List.dropWhile_sublist _).subset h

theorem mem_of_mem_dropTrailingWs {a : Char} {l : List Char}
    (h : a ∈ dropTrailingWs l) : a ∈ l := by
  unfold dropTrailingWs at h
  rw [List.mem_reverse] at h
  exact List.mem_reverse.mp (mem_of_mem_dropWhileWs h)

theorem mem_of_mem_trimChars {a : Char} {l : List Char}
    (h : a ∈ trimChars l) : a ∈ l := by
  unfold trimChars at h
  exact mem_of_mem_dropWhileWs (mem_of_mem_dropTrailingWs h)

theorem dropWhile_ws_idem (l : List Char) :
    (l.dropWhile isSpaceChar).dropWhile isSpaceChar = l.dropWhile isSpaceChar := by
  induction l with
  | nil => rfl
  | cons a t ih =>
    by_cases h : isSpaceChar a
    · rw [List.dropWhile_cons_of_pos h]; exact ih
    · rw [List.dropWhile_cons_of_neg h, List.dropWhile_cons_of_neg h]

theorem exists_append_dropWhile_ws (l : List Char) :
    ∃ t, t ++ l.dropWhile isSpaceChar = l := by
  induction l with
  | nil => exact ⟨[], rfl⟩
  | cons a t ih =>
    by_cases h : isSpaceChar a
    · obtain ⟨u, hu⟩ := ih
      exact ⟨a :: u, by rw [List.dropWhile_cons_of_pos h, List.cons_append, hu]⟩
    · exact ⟨[], by rw [List.dropWhile_cons_of_neg h, List.nil_append]⟩

theorem exists_dropTrailingWs_append (l : List Char) :
    ∃ u, dropTrailingWs l ++ u = l := by
  obtain ⟨t, ht⟩ := exists_append_dropWhile_ws l.reverse
  refine ⟨t.reverse, ?_⟩
  unfold dropTrailingWs
  have h2 := congrArg List.reverse ht
  rw [List.reverse_append, List.reverse_reverse] at h2
  exact h2

theorem dropWhile_ws_dropTrailingWs (l : List Char) (h : l.dropWhile isSpaceChar = l) :
    (dropTrailingWs l).dropWhile isSpaceChar = dropTrailingWs l := by
  obtain ⟨u, hu⟩ := exists_dropTrailingWs_append l
  cases hl : dropTrailingWs l with
  | nil => rfl
  | cons b ys =>
    rw [hl] at hu
    have hb : ¬ isSpaceChar b := by
      intro hb
      rw [← hu, List.cons_append, List.dropWhile_cons_of_pos hb] at h
      have hlen := congrArg List.length h
      have hle := ((List.dropWhile_sublist (l := ys ++ u) isSpaceChar).length_le)
      rw [List.length_cons] at hlen
      omega
    rw [List.dropWhile_cons_of_neg hb]

theorem dropTrailingWs_idem (l : List Char) :
    dropTrailingWs (dropTrailingWs l) = dropTrailingWs l := by
  unfold dropTrailingWs
  rw [List.reverse_reverse, dropWhile_ws_idem]

theorem trimChars_idem (l : List Char) : trimChars (trimChars l) = trimChars l := by
  unfold trimChars
  rw [dropWhile_ws_dropTrailingWs _ (dropWhile_ws_idem _), dropTrailingWs_idem]

theorem splitNl_no_newline :
    ∀ (s acc : List Char), (∀ c ∈ acc, c ≠ '\n') →
      ∀ l ∈ splitNl s acc, '\n' ∉ l := by
  intro s
  induction s with
  | nil =>
    intro acc hacc l hl hmem
    simp only [splitNl, List.mem_singleton] at hl
    subst hl
    exact hacc _ (List.mem_reverse.mp hmem) rfl
  | cons c cs ih =>
    intro acc hacc l hl
    by_cases hc : c = '\n'
    · rw [splitNl, if_pos hc] at hl
      rcases List.mem_cons.mp hl with hl | hl
      · subst hl
        intro hmem
        exact hacc _ (List.mem_reverse.mp hmem) rfl
      · exact ih [] (by simp) l hl
    · rw [splitNl, if_neg hc] at hl
      refine ih (c :: acc) ?_ l hl
      intro x hx
      rcases List.mem_cons.mp hx with hx | hx
      · subst hx; exact hc
      · exact hacc x hx

theorem splitNl_append_newline :
    ∀ (l acc rest : List Char), '\n' ∉ l →
      splitNl (l ++ '\n' :: rest) acc = (acc.reverse ++ l) :: splitNl rest [] := by
  intro l
  induction l with
  | nil => intro acc rest _; simp [splitNl]
  | cons c t ih =>
    intro acc rest h
    have hc : ¬ c = '\n' := by
      intro e; exact h (by rw [← e]; exact List.mem_cons_self _ _)
    rw [List.cons_append, splitNl, if_neg hc,
      ih (c :: acc) rest (fun hm => h (List.mem_cons_of_mem _ hm))]
    simp

theorem splitNl_of_no_newline :
    ∀ (l acc : List Char), '\n' ∉ l → splitNl l acc = [acc.reverse ++ l] := by
  intro l
  induction l with
  | nil => intro acc _; simp [splitNl]
  | cons c t ih =>
    intro acc h
    have hc : ¬ c = '\n' := by
      intro e; exact h (by rw [← e]; exact List.mem_cons_self _ _)
    rw [splitNl, if_neg hc, ih (c :: acc) (fun hm => h (List.mem_cons_of_mem _ hm))]
    simp

theorem splitNl_joinNl :
    ∀ ls : List (List Char), ls ≠ [] → (∀ l ∈ ls, '\n' ∉ l) →
      splitNl (joinNl ls) [] = ls := by
  intro ls
  induction ls with
  | nil => intro h _; exact absurd rfl h
  | cons l t ih =>
    intro _ hnl
    cases t with
    | nil =>
      rw [show joinNl [l] = l from rfl,
        splitNl_of_no_newline l [] (hnl l (List.mem_cons_self _ _))]
      simp
    | cons l2 t2 =>
      rw [show joinNl (l :: l2 :: t2) = l ++ '\n' :: joinNl (l2 :: t2) from rfl,
        splitNl_append_newline l [] _ (hnl l (List.mem_cons_self _ _)),
        ih (by simp) (fun x hx => hnl x (List.mem_cons_of_mem _ hx))]
      simp

theorem extractLinesCore_props (s : List Char) :
    ∀ l ∈ extractLinesCore s, trimChars l = l ∧ l ≠ [] ∧ '\n' ∉ l := by
  intro l hl
  unfold extractLinesCore at hl
  rw [List.mem_filter] at hl
  obtain ⟨hmap, hne⟩ := hl
  rw [List.mem_map] at hmap
  obtain ⟨l0, hl0, rfl⟩ := hmap
  have hnn : '\n' ∉ l0 := splitNl_no_newline s [] (by simp) l0 hl0
  refine ⟨trimChars_idem l0, ?_, fun hm => hnn (mem_of_mem_trimChars hm)⟩
  intro he
  rw [he] at hne
  simp at hne

theorem extractLines_props (v : Option String) :
    ∀ l ∈ extractLines v, trimChars l = l ∧ l ≠ [] ∧ '\n' ∉ l :=
  fun l hl => extractLinesCore_props _ l hl

theorem map_eq_self_of_forall :
    ∀ (ls : List (List Char)) (f : List Char → List Char),
      (∀ l ∈ ls, f l = l) → ls.map f = ls := by
  intro ls f h
  induction ls with
  | nil => rfl
  | cons a t ih =>
    rw [List.map_cons, h a (List.mem_cons_self _ _),
      ih (fun x hx => h x (List.mem_cons_of_mem _ hx))]

theorem extractLinesCore_joinNl (ls : List (List Char))
    (h : ∀ l ∈ ls, trimChars l = l ∧ l ≠ [] ∧ '\n' ∉ l) :
    extractLinesCore (joinNl ls) = ls := by
  cases ls with
  | nil => rfl
  | cons l t =>
    unfold extractLinesCore
    rw [splitNl_joinNl _ (by simp) (fun x hx => (h x hx).2.2),
      map_eq_self_of_forall _ _ (fun x hx => (h x hx).1)]
    rw [List.filter_eq_self]
    intro a ha
    have := (h a ha).2.1
    cases a with
    | nil => exact absurd rfl this
    | cons b bs => rfl

theorem extract_joinLines (ls : List (List Char))
    (h : ∀ l ∈ ls, trimChars l = l ∧ l ≠ [] ∧ '\n' ∉ l) :
    extractLines (some (joinLines ls)) = ls := by
  unfold extractLines joinLines
  exact extractLinesCore_joinNl ls h



theorem reconcileRow_none {index : Index} {idx : Nat} {r : Row}
    (h : index r.object_id = none) :
    reconcileRow index idx r =
      { filtered_pattern_lines := extractLines r.pattern_text
        filtered_comment_lines := extractLines r.comment_text
        removed_pattern_lines := []
        removed_comment_lines := []
        changed := false } := by
  unfold reconcileRow
  rw [h]

theorem reconcileRow_some_none {index : Index} {idx : Nat} {r : Row} {e : IndexEntry}
    (h : index r.object_id = some e) (hc : e.comments = none) :
    reconcileRow index idx r =
      { filtered_pattern_lines :=
          (extractLines r.pattern_text).filter (fun l => !memLine l e.patterns)
        filtered_comment_lines := extractLines r.comment_text
        removed_pattern_lines :=
          ((extractLines r.pattern_text).filter (fun l => memLine l e.patterns)).map (displayTag idx)
        removed_comment_lines := []
        changed :=
          decide (((extractLines r.pattern_text).filter (fun l => !memLine l e.patterns)).length ≠
            (extractLines r.pattern_text).length) } := by
  unfold reconcileRow
  rw [h]
  dsimp only
  rw [hc]

theorem reconcileRow_some_some {index : Index} {idx : Nat} {r : Row} {e : IndexEntry}
    {cs : List (List Char)}
    (h : index r.object_id = some e) (hc : e.comments = some cs) :
    reconcileRow index idx r =
      { filtered_pattern_lines :=
          (extractLines r.pattern_text).filter (fun l => !memLine l e.patterns)
        filtered_comment_lines :=
          (extractLines r.comment_text).filter (fun l => !memLine l cs)
        removed_pattern_lines :=
          ((extractLines r.pattern_text).filter (fun l => memLine l e.patterns)).map (displayTag idx)
        removed_comment_lines :=
          ((extractLines r.comment_text).filter (fun l => memLine l cs)).map (displayTag idx)
        changed :=
          decide (((extractLines r.pattern_text).filter (fun l => !memLine l e.patterns)).length ≠
              (extractLines r.pattern_text).length ∨
            ((extractLines r.comment_text).filter (fun l => !memLine l cs)).length ≠
              (extractLines r.comment_text).length) } := by
  unfold reconcileRow
  rw [h]
  dsimp only
  rw [hc]

theorem filtered_pattern_mem {index : Index} {i : Nat} {r : Row} :
    ∀ l ∈ (reconcileRow index i r).filtered_pattern_lines, l ∈ extractLines r.pattern_text := by
  cases h : index r.object_id with
  | none => rw [reconcileRow_none h]; intro l hl; exact hl
  | some e =>
    cases hc : e.comments with
    | none =>
      rw [reconcileRow_some_none h hc]
      intro l hl
      exact (List.mem_filter.mp hl).1
    | some cs =>
      rw [reconcileRow_some_some h hc]
      intro l hl
      exact (List.mem_filter.mp hl).1

theorem filtered_comment_mem {index : Index} {i : Nat} {r : Row} :
    ∀ l ∈ (reconcileRow index i r).filtered_comment_lines, l ∈ extractLines r.comment_text := by
  cases h : index r.object_id with
  | none => rw [reconcileRow_none h]; intro l hl; exact hl
  | some e =>
    cases hc : e.comments with
    | none => rw [reconcileRow_some_none h hc]; intro l hl; exact hl
    | some cs =>
      rw [reconcileRow_some_some h hc]
      intro l hl
      exact (List.mem_filter.mp hl).1

theorem filtered_pattern_not_mem {index : Index} {i : Nat} {r : Row} {e : IndexEntry}
    (h : index r.object_id = some e) :
    ∀ l ∈ (reconcileRow index i r).filtered_pattern_lines, memLine l e.patterns = false := by
  cases hc : e.comments with
  | none =>
    rw [reconcileRow_some_none h hc]
    intro l hl
    have := (List.mem_filter.mp hl).2
    simpa using this
  | some cs =>
    rw [reconcileRow_some_some h hc]
    intro l hl
    have := (List.mem_filter.mp hl).2
    simpa using this

theorem filtered_comment_not_mem {index : Index} {i : Nat} {r : Row} {e : IndexEntry}
    {cs : List (List Char)}
    (h : index r.object_id = some e) (hc : e.comments = some cs) :
    ∀ l ∈ (reconcileRow index i r).filtered_comment_lines, memLine l cs = false := by
  rw [reconcileRow_some_some h hc]
  intro l hl
  have := (List.mem_filter.mp hl).2
  simpa using this

theorem extract_filteredRow_pattern (index : Index) (i : Nat) (r : Row) :
    extractLines (filteredRow index i r).pattern_text =
      (reconcileRow index i r).filtered_pattern_lines := by
  show extractLines (some (joinLines (reconcileRow index i r).filtered_pattern_lines)) = _
  exact extract_joinLines _
    (fun l hl => extractLines_props r.pattern_text l (filtered_pattern_mem l hl))

theorem extract_filteredRow_comment (index : Index) (i : Nat) (r : Row) :
    extractLines (filteredRow index i r).comment_text =
      (reconcileRow index i r).filtered_comment_lines := by
  show extractLines (some (joinLines (reconcileRow index i r).filtered_comment_lines)) = _
  exact extract_joinLines _
    (fun l hl => extractLines_props r.comment_text l (filtered_comment_mem l hl))

theorem reconcileRow_refiltered (index : Index) (i j : Nat) (r : Row) :
    (reconcileRow index j (filteredRow index i r)).changed = false ∧
    (reconcileRow index j (filteredRow index i r)).removed_pattern_lines = [] ∧
    (reconcileRow index j (filteredRow index i r)).removed_comment_lines = [] := by
  have hoid : (filteredRow index i r).object_id = r.object_id := rfl
  cases h : index r.object_id with
  | none =>
    have h2 : index (filteredRow index i r).object_id = none := by rw [hoid, h]
    rw [reconcileRow_none h2]
    exact ⟨rfl, rfl, rfl⟩
  | some e =>
    have h2 : index (filteredRow index i r).object_id = some e := by rw [hoid, h]
    have hp := extract_filteredRow_pattern index i r
    have hpfull : ∀ l ∈ (reconcileRow index i r).filtered_pattern_lines,
        (!memLine l e.patterns) = true := by
      intro l hl
      rw [filtered_pattern_not_mem h l hl]
      rfl
    have hpself :
        ((reconcileRow index i r).filtered_pattern_lines.filter
          (fun l => !memLine l e.patterns)) =
          (reconcileRow index i r).filtered_pattern_lines :=
      List.filter_eq_self.mpr hpfull
    have hpnil :
        ((reconcileRow index i r).filtered_pattern_lines.filter
          (fun l => memLine l e.patterns)) = [] := by
      rw [List.filter_eq_nil_iff]
      intro a ha
      rw [filtered_pattern_not_mem h a ha]
      simp
    cases hc : e.comments with
    | none =>
      rw [reconcileRow_some_none h2 hc, hp, hpself, hpnil]
      refine ⟨by simp, rfl, rfl⟩
    | some cs =>
      have hcm := extract_filteredRow_comment index i r
      have hcfull : ∀ l ∈ (reconcileRow index i r).filtered_comment_lines,
          (!memLine l cs) = true := by
        intro l hl
        rw [filtered_comment_not_mem h hc l hl]
        rfl
      have hcself :
          ((reconcileRow index i r).filtered_comment_lines.filter
            (fun l => !memLine l cs)) =
            (reconcileRow index i r).filtered_comment_lines :=
        List.filter_eq_self.mpr hcfull
      have hcnil :
          ((reconcileRow index i r).filtered_comment_lines.filter
            (fun l => memLine l cs)) = [] := by
        rw [List.filter_eq_nil_iff]
        intro a ha
        rw [filtered_comment_not_mem h hc a ha]
        simp
      rw [reconcileRow_some_some h2 hc, hp, hcm, hpself, hpnil, hcself, hcnil]
      refine ⟨by simp, rfl, rfl⟩



theorem reconcileFrom_refiltered_all (index : Index) :
    ∀ (rows : List Row) (i j : Nat),
      (reconcileFrom index j (filteredSnapshotFrom index i rows)).all
        (fun res => res.removed_pattern_lines.isEmpty &&
          res.removed_comment_lines.isEmpty && !res.changed) = true := by
  intro rows
  induction rows with
  | nil => intro i j; rfl
  | cons r rs ih =>
    intro i j
    rw [filteredSnapshotFrom, reconcileFrom, List.all_cons]
    obtain ⟨hch, hrp, hrc⟩ := reconcileRow_refiltered index i j r
    rw [hch, hrp, hrc, ih]
    rfl

theorem updFn_same (m : Index) (k : String) (v : IndexEntry) : updFn m k v k = some v := by
  rw [updFn, if_pos rfl]

theorem updFn_other (m : Index) (k : String) (v : IndexEntry) (q : String)
    (h : ¬ q = k) : updFn m k v q = m q := by
  rw [updFn, if_neg h]

theorem pass1_lookup :
    ∀ (l : List Row) (m : Index) (id : String),
      pass1 l m id =
        match l.reverse.find? (fun r => r.object_id == id) with
        | some r => some { patterns := extractLines r.pattern_text, comments := none }
        | none => m id := by
  intro l
  induction l with
  | nil => intro m id; rfl
  | cons r rs ih =>
    intro m id
    rw [pass1, ih, List.reverse_cons, List.find?_append]
    cases hfind : rs.reverse.find? (fun r => r.object_id == id) with
    | some r2 => rw [Option.or_some]
    | none =>
      rw [Option.none_or, List.find?_singleton]
      by_cases hid : r.object_id = id
      · rw [if_pos (by simp [hid]), updFn, if_pos hid.symm]
      · rw [if_neg (by simp [hid]), updFn, if_neg (fun e => hid e.symm)]

theorem pass2_lookup :
    ∀ (l : List Row) (m : Index) (id : String) (e : IndexEntry),
      m id = some e →
      pass2 l m id =
        match l.reverse.find? (fun r => r.object_id == id) with
        | some r => some { e with comments := some (extractLines r.comment_text) }
        | none => some e := by
  intro l
  induction l with
  | nil => intro m id e hm; rw [pass2]; simpa using hm
  | cons r rs ih =>
    intro m id e hm
    rw [List.reverse_cons, List.find?_append]
    by_cases hid : r.object_id = id
    · subst hid
      simp only [pass2, hm]
      rw [ih _ r.object_id
        { patterns := e.patterns, comments := some (extractLines r.comment_text) }
        (updFn_same _ _ _)]
      cases hfind : rs.reverse.find? (fun r2 => r2.object_id == r.object_id) with
      | some r2 => rw [Option.or_some]
      | none =>
        rw [Option.none_or, List.find?_singleton, if_pos (by simp)]
    · have hneq : ¬ id = r.object_id := fun e2 => hid e2.symm
      cases hmr : m r.object_id with
      | none =>
        simp only [pass2, hmr]
        rw [ih _ id e (by rw [updFn_other _ _ _ _ hneq, updFn_other _ _ _ _ hneq, hm])]
        cases hfind : rs.reverse.find? (fun r2 => r2.object_id == id) with
        | some r2 => rw [Option.or_some]
        | none =>
          rw [Option.none_or, List.find?_singleton, if_neg (by simp [hid])]
      | some e0 =>
        simp only [pass2, hmr]
        rw [ih _ id e (by rw [updFn_other _ _ _ _ hneq, hm])]
        cases hfind : rs.reverse.find? (fun r2 => r2.object_id == id) with
        | some r2 => rw [Option.or_some]
        | none =>
          rw [Option.none_or, List.find?_singleton, if_neg (by simp [hid])]

theorem pass2_none :
    ∀ (l : List Row) (m : Index) (id : String),
      m id = none →
      l.reverse.find? (fun r => r.object_id == id) = none →
      pass2 l m id = none := by
  intro l
  induction l with
  | nil => intro m id hm _; rw [pass2]; exact hm
  | cons r rs ih =>
    intro m id hm hfind
    rw [List.reverse_cons, List.find?_append] at hfind
    cases hf1 : rs.reverse.find? (fun r => r.object_id == id) with
    | some r2 => rw [hf1, Option.or_some] at hfind; exact absurd hfind (by simp)
    | none =>
      rw [hf1, Option.none_or, List.find?_singleton] at hfind
      have hid : ¬ r.object_id = id := by
        intro e
        rw [if_pos (by simp [e])] at hfind
        exact absurd hfind (by simp)
      have hneq : ¬ id = r.object_id := fun e2 => hid e2.symm
      cases hmr : m r.object_id with
      | none =>
        simp only [pass2, hmr]
        exact ih _ id (by rw [updFn_other _ _ _ _ hneq, updFn_other _ _ _ _ hneq, hm]) hf1
      | some e0 =>
        simp only [pass2, hmr]
        exact ih _ id (by rw [updFn_other _ _ _ _ hneq, hm]) hf1

theorem build_index_lookup (prior : List Row) (id : String) :
    build_index prior id =
      (lastRowWith prior id).map
        (fun r =>
          { patterns := extractLines r.pattern_text
            comments := some (extractLines r.comment_text) }) := by
  unfold build_index lastRowWith
  cases hfind : prior.reverse.find? (fun r => r.object_id == id) with
  | none =>
    rw [pass2_none prior _ id (by rw [pass1_lookup, hfind]) hfind]
    rfl
  | some r =>
    rw [pass2_lookup prior _ id
      { patterns := extractLines r.pattern_text, comments := none }
      (by rw [pass1_lookup, hfind]), hfind]
    rfl



theorem writerWritesFrom_mem (ccol : Option Nat) :
    ∀ (df : List Row) (k i : Nat) (r : Row),
      df.get? i = some r →
      (k + i + 2, 7, cellValue r.pattern_text) ∈ writerWritesFrom ccol k df := by
  intro df
  induction df with
  | nil => intro k i r h; simp [List.get?] at h
  | cons a rs ih =>
    intro k i r h
    cases i with
    | zero =>
      rw [List.get?_cons_zero] at h
      injection h with h
      subst h
      rw [writerWritesFrom]
      exact List.mem_append_left _ (List.mem_cons_self _ _)
    | succ n =>
      rw [List.get?_cons_succ] at h
      rw [writerWritesFrom]
      refine List.mem_append_right _ ?_
      have harith : k + (n + 1) + 2 = (k + 1) + n + 2 := by omega
      rw [harith]
      exact ih (k + 1) n r h

theorem writerWritesFrom_none_cols :
    ∀ (df : List Row) (k : Nat),
      (writerWritesFrom none k df).length = df.length ∧
      ∀ w ∈ writerWritesFrom none k df, w.2.1 = 7 := by
  intro df
  induction df with
  | nil =>
    intro k
    exact ⟨rfl, fun w hw => by simp [writerWritesFrom] at hw⟩
  | cons r rs ih =>
    intro k
    rw [writerWritesFrom]
    constructor
    · rw [List.length_append, (ih (k + 1)).1,
        show (rowWrites none k r).length = 1 from rfl, List.length_cons]
      omega
    · intro w hw
      rcases List.mem_append.mp hw with hw | hw
      · rcases List.mem_cons.mp hw with hw | hw
        · subst hw; rfl
        · simp [rowWrites] at hw
      · exact (ih (k + 1)).2 w hw



/-- C1: the claim asserts the built index merges duplicate prior rows by set
union, so that prior pattern sets `{"P1"}` and `{"P2"}` for the same object
id yield `{"P1","P2"}`. The code instead replaces the entry on each
duplicate row: the built pattern set for `W` is `{"P2"}` and `P1` is lost. -/
theorem c1_counterexample :
    build_index priorC1 "W" =
      some { patterns := ["P2".toList], comments := some [] } ∧
    "P1".toList ∉
      ({ patterns := ["P2".toList], comments := some [] } : IndexEntry).patterns := by
  decide

/-- C1 (amended): `build_index` resolves duplicate object ids by
last-write-wins replacement: the entry for an id equals exactly the pattern
and comment line sets extracted from the last prior row bearing that id. -/
theorem c1_last_write_wins :
    ∀ (prior : List Row) (id : String) (r : Row),
      lastRowWith prior id = some r →
      build_index prior id =
        some { patterns := extractLines r.pattern_text
               comments := some (extractLines r.comment_text) } := by
  intro prior id r h
  rw [build_index_lookup, h]
  rfl

/-- C1 witness: the amended theorem applied to `priorC1` at id `W`. -/
theorem c1_witness :
    build_index priorC1 "W" =
      some { patterns := extractLines (some "P2")
             comments := some (extractLines none) } :=
  c1_last_write_wins priorC1 "W"
    { object_id := "W", pattern_text := some "P2", comment_text := none } (by decide)



/-- C2: the claim asserts the writer writes back only rows with
`changed == true`, leaving every other cell literally unmodified. In the
code, once any change was made the save loop writes the pattern (and, when
found, comment) cell of EVERY row: here row ordinal 1 has `changed = false`
yet its pattern cell (worksheet row 3, column 7) is written. -/
theorem c2_counterexample :
    ((reconcile currentC2 (build_index priorC2)).get? 1).map ReconResult.changed =
      some false ∧
    (3, 7, "K") ∈ processWrites currentC2 (build_index priorC2) wsC2 := by
  decide

/-- C2 (amended): whenever any row changed, the writer rewrites the pattern
cell (column 7, worksheet row ordinal + 2) of every row of the mutated
dataframe with its in-memory value (blank coerced to the empty string),
regardless of that row's own `changed` flag. -/
theorem c2_writer_rewrites_all_rows :
    ∀ (current : List Row) (index : Index) (ws : Worksheet) (i : Nat) (r : Row),
      changesMade current index = true →
      (current.map (updateRow index)).get? i = some r →
      (i + 2, 7, cellValue r.pattern_text) ∈ processWrites current index ws := by
  intro current index ws i r hch hget
  rw [processWrites, if_pos hch]
  have h := writerWritesFrom_mem (findCommentCol ws commentColName)
    (current.map (updateRow index)) 0 i r hget
  simpa using h

/-- C2 witness: the amended theorem applied to the `currentC2` run at the
unchanged row ordinal 1. -/
theorem c2_witness :
    (3, 7, "K") ∈ processWrites currentC2 (build_index priorC2) wsC2 :=
  c2_writer_rewrites_all_rows currentC2 (build_index priorC2) wsC2 1
    { object_id := "id2", pattern_text := some "K", comment_text := none }
    (by decide) (by decide)

/-- C3: the claim asserts a missing target column aborts the write with a
`SchemaMismatch` error before any cell is written. In the code a missing
comment column raises nothing: `comment_col_letter` stays `None`, comment
writes are skipped, and the pattern cells are still written — here the
workbook (with no comment header) receives the write `(2, 7, "")`. -/
theorem c3_counterexample :
    findCommentCol wsC3 commentColName = none ∧
    processWrites currentC3 (build_index priorC3) wsC3 = [(2, 7, "")] := by
  decide

/-- C3 (amended): when the comment column cannot be located by header name,
no error is raised and the workbook is still mutated: the writer emits
exactly one write per row, all to pattern column 7, and silently skips all
comment-cell writes. -/
theorem c3_missing_column_silently_skipped :
    ∀ (df : List Row) (ws : Worksheet),
      findCommentCol ws commentColName = none →
      (writerWrites df ws).length = df.length ∧
      ∀ w ∈ writerWrites df ws, w.2.1 = 7 := by
  intro df ws h
  rw [writerWrites, h]
  exact writerWritesFrom_none_cols df 0

/-- C3 witness: the amended theorem applied to `currentC3` and the
comment-column-free worksheet `wsC3`. -/
theorem c3_witness :
    (writerWrites currentC3 wsC3).length = currentC3.length :=
  (c3_missing_column_silently_skipped currentC3 wsC3 (by decide)).1

/-- C4: reconciliation is idempotent: reconciling the already-filtered
current snapshot (every cell replaced by its serialized filtered lines)
against the same index removes nothing and reports `changed = false` for
every row. -/
theorem c4_idempotent :
    ∀ (current : List Row) (index : Index),
      (reconcile (filteredSnapshot current index) index).all
        (fun res => res.removed_pattern_lines.isEmpty &&
          res.removed_comment_lines.isEmpty && !res.changed) = true := by
  intro current index
  exact reconcileFrom_refiltered_all index current 0 0



/-- C5: for a current row whose object id is indexed, the filtered lines are
exactly the extracted lines not in the indexed set — an order-preserving
subsequence — and the removed lines are exactly the excluded ones tagged
with the display row number, symmetrically for comments; `changed` holds
exactly when a line count shrank. -/
theorem c5_filter_semantics :
    ∀ (index : Index) (idx : Nat) (r : Row) (e : IndexEntry) (cs : List (List Char)),
      index r.object_id = some e → e.comments = some cs →
      ((reconcileRow index idx r).filtered_pattern_lines =
          (extractLines r.pattern_text).filter (fun l => !memLine l e.patterns) ∧
        (reconcileRow index idx r).removed_pattern_lines =
          ((extractLines r.pattern_text).filter (fun l => memLine l e.patterns)).map
            (displayTag idx) ∧
        (reconcileRow index idx r).filtered_pattern_lines.Sublist
          (extractLines r.pattern_text)) ∧
      ((reconcileRow index idx r).filtered_comment_lines =
          (extractLines r.comment_text).filter (fun l => !memLine l cs) ∧
        (reconcileRow index idx r).removed_comment_lines =
          ((extractLines r.comment_text).filter (fun l => memLine l cs)).map
            (displayTag idx) ∧
        (reconcileRow index idx r).filtered_comment_lines.Sublist
          (extractLines r.comment_text)) ∧
      ((reconcileRow index idx r).changed = true ↔
        ((reconcileRow index idx r).filtered_pattern_lines.length ≠
            (extractLines r.pattern_text).length ∨
          (reconcileRow index idx r).filtered_comment_lines.length ≠
            (extractLines r.comment_text).length)) := by
  intro index idx r e cs h hc
  rw [reconcileRow_some_some h hc]
  refine ⟨⟨rfl, rfl, List.filter_sublist _⟩, ⟨rfl, rfl, List.filter_sublist _⟩, ?_⟩
  simp

/-- C5 witness: the theorem applied to the spec scenario — prior
`WCC-1 : "A\nB"`, current `WCC-1 : "A\nB\nC"` — which yields filtered
`["C"]`, removed `["Row 2: A", "Row 2: B"]`, `changed = true`. -/
theorem c5_witness :
    (reconcileRow (build_index priorC5) 0 rowC5).filtered_pattern_lines =
      (extractLines rowC5.pattern_text).filter (fun l => !memLine l entryC5.patterns) ∧
    (reconcileRow (build_index priorC5) 0 rowC5).filtered_pattern_lines = ["C".toList] ∧
    (reconcileRow (build_index priorC5) 0 rowC5).removed_pattern_lines =
      ["Row 2: A", "Row 2: B"] ∧
    (reconcileRow (build_index priorC5) 0 rowC5).changed = true :=
  ⟨(c5_filter_semantics (build_index priorC5) 0 rowC5 entryC5 []
      (by decide) (by decide)).1.1,
   by decide, by decide, by decide⟩

/-- C6: the line extractor is total; every extracted line is non-empty,
whitespace-trimmed and newline-free; the extracted sequence is an
order-preserving subsequence of the trimmed newline split; and the spec
examples `"  A  \n\nB" ↦ ["A","B"]` and `null ↦ []` hold. -/
theorem c6_extractor_normalizes :
    (∀ v : Option String,
      (extractLines v).all
        (fun l => !l.isEmpty && decide (trimChars l = l) && decide ('\n' ∉ l)) = true ∧
      (extractLines v).Sublist ((splitNl (v.getD "").toList []).map trimChars)) ∧
    extractLines (some "  A  \n\nB") = ["A".toList, "B".toList] ∧
    extractLines none = [] := by
  refine ⟨fun v => ⟨?_, ?_⟩, by decide, by decide⟩
  · rw [List.all_eq_true]
    intro l hl
    obtain ⟨ht, hne, hnn⟩ := extractLines_props v l hl
    have h1 : l.isEmpty = false := by
      cases l with
      | nil => exact absurd rfl hne
      | cons a t => rfl
    simp [h1, ht, hnn]
  · unfold extractLines extractLinesCore
    exact List.filter_sublist _

/-- C7: a current row whose object id is absent from the index is left
whole: filtered lines equal the extracted lines, nothing is removed and
`changed = false` (and, the function being total, no error is raised). -/
theorem c7_unseen_id_no_removal :
    ∀ (index : Index) (idx : Nat) (r : Row),
      index r.object_id = none →
      reconcileRow index idx r =
        { filtered_pattern_lines := extractLines r.pattern_text
          filtered_comment_lines := extractLines r.comment_text
          removed_pattern_lines := []
          removed_comment_lines := []
          changed := false } :=
  fun _ _ _ h => reconcileRow_none h

/-- C7 witness: the theorem applied to a current row whose id `WCC-NEW` is
absent from the index built from `priorC7`. -/
theorem c7_witness :
    reconcileRow (build_index priorC7) 0 rowC7 =
      { filtered_pattern_lines := extractLines rowC7.pattern_text
        filtered_comment_lines := extractLines rowC7.comment_text
        removed_pattern_lines := []
        removed_comment_lines := []
        changed := false } :=
  c7_unseen_id_no_removal (build_index priorC7) 0 rowC7 (by decide)



/-- C8: the diff reporter renders at most 20 entries per category — exactly
the first 20, with a remainder count of `total - 20` appended exactly when
more than 20 exist — and every removal entry produced by reconciliation has
the `Row {display_row}: {line}` form. -/
theorem c8_reporter_caps :
    (∀ rp rc : List String,
      (summarize rp rc).1.rendered = rp.take 20 ∧
      (summarize rp rc).1.rendered.length = min rp.length 20 ∧
      (summarize rp rc).1.rendered ++ rp.drop 20 = rp ∧
      (20 < rp.length → (summarize rp rc).1.more = some (rp.length - 20)) ∧
      (rp.length ≤ 20 → (summarize rp rc).1.more = none) ∧
      (summarize rp rc).2.rendered = rc.take 20 ∧
      (summarize rp rc).2.rendered.length = min rc.length 20 ∧
      (summarize rp rc).2.rendered ++ rc.drop 20 = rc ∧
      (20 < rc.length → (summarize rp rc).2.more = some (rc.length - 20)) ∧
      (rc.length ≤ 20 → (summarize rp rc).2.more = none)) ∧
    (∀ (index : Index) (idx : Nat) (r : Row) (s : String),
      s ∈ (reconcileRow index idx r).removed_pattern_lines ∨
        s ∈ (reconcileRow index idx r).removed_comment_lines →
      ∃ l, s = displayTag idx l) := by
  constructor
  · intro rp rc
    refine ⟨rfl, ?_, List.take_append_drop _ _, ?_, ?_, rfl, ?_,
      List.take_append_drop _ _, ?_, ?_⟩
    · rw [show (summarize rp rc).1.rendered = rp.take 20 from rfl,
        List.length_take, Nat.min_comm]
    · intro h
      show (if 20 < rp.length then some (rp.length - 20) else none) = _
      rw [if_pos h]
    · intro h
      show (if 20 < rp.length then some (rp.length - 20) else none) = _
      rw [if_neg (by omega)]
    · rw [show (summarize rp rc).2.rendered = rc.take 20 from rfl,
        List.length_take, Nat.min_comm]
    · intro h
      show (if 20 < rc.length then some (rc.length - 20) else none) = _
      rw [if_pos h]
    · intro h
      show (if 20 < rc.length then some (rc.length - 20) else none) = _
      rw [if_neg (by omega)]
  · intro index idx r s hs
    cases hidx : index r.object_id with
    | none =>
      rw [reconcileRow_none hidx] at hs
      rcases hs with hs | hs <;> simp at hs
    | some e =>
      cases hc : e.comments with
      | none =>
        rw [reconcileRow_some_none hidx hc] at hs
        rcases hs with hs | hs
        · obtain ⟨l, _, hl⟩ := List.mem_map.mp hs
          exact ⟨l, hl.symm⟩
        · simp at hs
      | some cs =>
        rw [reconcileRow_some_some hidx hc] at hs
        rcases hs with hs | hs
        · obtain ⟨l, _, hl⟩ := List.mem_map.mp hs
          exact ⟨l, hl.symm⟩
        · obtain ⟨l, _, hl⟩ := List.mem_map.mp hs
          exact ⟨l, hl.symm⟩

/-- C8 witness: the theorem applied to a category of 25 removal entries —
exactly 20 rendered, remainder count 5. -/
theorem c8_witness :
    (summarize (List.replicate 25 "Row 2: x") []).1.rendered.length = 20 ∧
    (summarize (List.replicate 25 "Row 2: x") []).1.more = some 5 := by
  have h := c8_reporter_caps.1 (List.replicate 25 "Row 2: x") []
  constructor
  · have h2 := h.2.1
    simpa using h2
  · have h2 := h.2.2.2.1 (by simp)
    simpa using h2

/-- C9: reconciliation of a row depends only on the row itself and on the
index entry for its object id: two indexes that agree on that entry give the
row identical results, so a removal for one object id can never affect a row
with a different id. -/
theorem c9_row_locality :
    ∀ (index1 index2 : Index) (idx : Nat) (r : Row),
      index1 r.object_id = index2 r.object_id →
      reconcileRow index1 idx r = reconcileRow index2 idx r := by
  intro i1 i2 idx r h
  unfold reconcileRow
  rw [h]

/-- C9 witness: the theorem applied to the indexes built from `priorC9a`
and `priorC9b`, which agree on id `A` but differ on id `B`. -/
theorem c9_witness :
    reconcileRow (build_index priorC9a) 0 rowC9 =
      reconcileRow (build_index priorC9b) 0 rowC9 :=
  c9_row_locality (build_index priorC9a) (build_index priorC9b) 0 rowC9 (by decide)

/-- C10: every entry of the built index carries a comments set (the second
indexing pass visits every prior row), so for every current row whose id is
indexed the comments-present guard does not skip: comment filtering against
that set is performed. -/
theorem c10_comments_always_present :
    ∀ (prior : List Row) (idx : Nat) (r : Row) (e : IndexEntry),
      build_index prior r.object_id = some e →
      e.comments.isSome = true ∧
      (reconcileRow (build_index prior) idx r).filtered_comment_lines =
        (extractLines r.comment_text).filter
          (fun l => !memLine l (e.comments.getD [])) ∧
      (reconcileRow (build_index prior) idx r).removed_comment_lines =
        ((extractLines r.comment_text).filter
          (fun l => memLine l (e.comments.getD []))).map (displayTag idx) := by
  intro prior idx r e he
  have hl := build_index_lookup prior r.object_id
  rw [he] at hl
  cases hlast : lastRowWith prior r.object_id with
  | none => rw [hlast] at hl; simp at hl
  | some r0 =>
    rw [hlast] at hl
    have he2 : e = { patterns := extractLines r0.pattern_text
                     comments := some (extractLines r0.comment_text) } := by
      injection hl with hl2
    subst he2
    rw [reconcileRow_some_some he rfl]
    exact ⟨rfl, rfl, rfl⟩

/-- C10 witness: the theorem applied to the index built from `priorC10` and
a current row sharing id `A`. -/
theorem c10_witness :
    entryC10.comments.isSome = true ∧
    (reconcileRow (build_index priorC10) 0 rowC10).filtered_comment_lines =
      (extractLines rowC10.comment_text).filter
        (fun l => !memLine l (entryC10.comments.getD [])) ∧
    (reconcileRow (build_index priorC10) 0 rowC10).removed_comment_lines =
      ((extractLines rowC10.comment_text).filter
        (fun l => memLine l (entryC10.comments.getD []))).map (displayTag 0) :=
  c10_comments_always_present priorC10 0 rowC10 entryC10 (by decide)

end RTVM
